import Mathlib

/-!
Verification of the gradient-reconstruction and direction-disambiguation
engine of the Biketerra Gradient Colors content script
(`src/package/content.js`).  JavaScript numbers are modelled as rationals
(`ℚ`): every arithmetic operation performed by the engine on reachable
inputs is exact rational arithmetic (additions, subtractions,
multiplications, divisions, comparisons, `Math.floor`, `Math.round`,
`Math.min`/`Math.max`), so `ℚ` is a faithful carrier on the inputs the
claims quantify over.  Division by zero yields `0` in `ℚ`; every place the
source divides, a theorem below shows the divisor is nonzero on the
reachable inputs, so the convention is never load-bearing.
-/

/-- A sample of the authoritative route data: distance from the start (m)
and elevation (m).  Mirrors the `{ distance, elevation }` objects built by
`extractRouteData`. -/
structure RoutePoint where
  distance : ℚ
  elevation : ℚ
deriving DecidableEq, Repr

instance : Inhabited RoutePoint := ⟨⟨0, 0⟩⟩

/-- A point of the on-screen polyline in normalized chart coordinates,
as produced by `parsePolylinePoints`. -/
structure ScreenPoint where
  x : ℚ
  y : ℚ
deriving DecidableEq, Repr

instance : Inhabited ScreenPoint := ⟨⟨0, 0⟩⟩

/-- Verdict of `detectRouteDirection` (the JS strings `'forward'` /
`'reverse'`). -/
inductive Direction where
  | forward
  | reverse
deriving DecidableEq, Repr

/-- One emitted segment of the builder loop in `processElevationSVG`:
the two screen points bounding the polygon and the signed gradient that
is handed to `gradientToColor`. -/
structure GradientSample where
  p1 : ScreenPoint
  p2 : ScreenPoint
  gradient : ℚ
deriving DecidableEq, Repr

/-- The `while (lo < hi - 1)` binary-search loop of `interpolateElevation`
(content.js lines 186–195).  The loop shrinks `hi - lo` by at least one
per iteration, so running it with `fuel = routePoints.length` (strictly
more than the initial `hi - lo`) reproduces the JS loop exactly; the fuel
is a termination artifact only. -/
def searchGo (routePoints : List RoutePoint) (distance : ℚ) :
    ℕ → ℕ → ℕ → ℕ × ℕ
  | 0, lo, hi => (lo, hi)
  | fuel + 1, lo, hi =>
    if lo + 1 < hi then
      let mid := (lo + hi) / 2
      if (routePoints.getD mid default).distance ≤ distance then
        searchGo routePoints distance fuel mid hi
      else
        searchGo routePoints distance fuel lo mid
    else (lo, hi)

/-- `interpolateElevation(routePoints, distance)` (content.js 178–201):
clamp at both ends, otherwise binary-search a bracket and linearly
interpolate.  Out-of-range list reads (never reached on the guarded
paths) give the `default` point, and a zero-width bracket (never produced
by the search, see the C4 theorem) gives `t = 0` under `ℚ` division. -/
def interpolateElevation (routePoints : List RoutePoint) (distance : ℚ) : ℚ :=
  if routePoints.isEmpty then 0
  else if distance ≤ (routePoints.headD default).distance then
    (routePoints.headD default).elevation
  else if (routePoints.getLastD default).distance ≤ distance then
    (routePoints.getLastD default).elevation
  else
    let r := searchGo routePoints distance routePoints.length 0 (routePoints.length - 1)
    let p1 := routePoints.getD r.1 default
    let p2 := routePoints.getD r.2 default
    p1.elevation + (distance - p1.distance) / (p2.distance - p1.distance) * (p2.elevation - p1.elevation)

/-- `computeGradientAtDistance(routePoints, distance, totalDistance,
windowSize = 50)` (content.js 205–217): smoothed gradient over a symmetric
window clipped to `[0, totalDistance]`. -/
def computeGradientAtDistance (routePoints : List RoutePoint)
    (distance totalDistance : ℚ) (windowSize : ℚ := 50) : ℚ :=
  let d1 := max 0 (distance - windowSize)
  let d2 := min totalDistance (distance + windowSize)
  let e1 := interpolateElevation routePoints d1
  let e2 := interpolateElevation routePoints d2
  let deltaD := d2 - d1
  if deltaD ≤ 0 then 0
  else (e2 - e1) / deltaD * 100

/-- The scan loop of `getSvgYAtX` (content.js 227–234): walk adjacent
pairs left to right and interpolate in the first pair whose right end is
at or beyond `targetX`; `fallback` is the post-loop `return` value. -/
def scanFrom (targetX : ℚ) (prev : ScreenPoint) :
    List ScreenPoint → ℚ → ℚ
  | [], fallback => fallback
  | cur :: rest, fallback =>
    if targetX ≤ cur.x then
      prev.y + (targetX - prev.x) / (cur.x - prev.x) * (cur.y - prev.y)
    else scanFrom targetX cur rest fallback

/-- `getSvgYAtX(svgPoints, targetX)` (content.js 220–236): `null` on an
empty curve, clamped at both ends, otherwise piecewise-linear. -/
def getSvgYAtX (svgPoints : List ScreenPoint) (targetX : ℚ) : Option ℚ :=
  match svgPoints with
  | [] => none
  | p0 :: rest =>
    if targetX ≤ p0.x then some p0.y
    else if (svgPoints.getLastD default).x ≤ targetX then
      some (svgPoints.getLastD default).y
    else some (scanFrom targetX p0 rest (svgPoints.getLastD default).y)

/-- `sumSquaredError(arr1, arr2)` (content.js 239–246).  The JS loop runs
over `arr1`'s indices; both call sites pass equal-length arrays, and
out-of-range reads are modelled by `0`. -/
def sumSquaredError (arr1 arr2 : List ℚ) : ℚ :=
  ((List.range arr1.length).map
    (fun i => (arr1.getD i 0 - arr2.getD i 0) * (arr1.getD i 0 - arr2.getD i 0))).sum

/-- `Math.min(...arr)` on the lists this engine builds.  (JS yields
`Infinity` on an empty spread; the engine only reaches the empty case
where the result is immediately discarded, see `ySpanOf`.) -/
def listMin : List ℚ → ℚ
  | [] => 0
  | x :: xs => xs.foldl min x

/-- `Math.max(...arr)`, same conventions as `listMin`. -/
def listMax : List ℚ → ℚ
  | [] => 0
  | x :: xs => xs.foldl max x

/-- `normalizeArray(arr)` (content.js 249–254): min-max normalize to
`[0,1]`; the JS `max - min || 1` guard replaces a zero range by 1. -/
def normalizeArray (arr : List ℚ) : List ℚ :=
  let mn := listMin arr
  let mx := listMax arr
  let range := if mx - mn = 0 then 1 else mx - mn
  arr.map (fun v => (v - mn) / range)

/-- One `{x, diff}` candidate of `findAsymmetricPositions`. -/
structure Candidate where
  x : ℚ
  diff : ℚ
deriving DecidableEq, Repr

instance : Inhabited Candidate := ⟨⟨0, 0⟩⟩

/-- `findAsymmetricPositions(routePoints, totalDistance, numCandidates =
100)` (content.js 258–267): candidates at `x = i/numCandidates` for
`i = 1 .. numCandidates-1`, sorted by descending `diff`.  The JS
`sort((a,b) => b.diff - a.diff)` is the ES2019 stable descending sort,
i.e. a stable merge sort with `a` kept before `b` iff `b.diff ≤ a.diff`. -/
def findAsymmetricPositions (routePoints : List RoutePoint)
    (totalDistance : ℚ) (numCandidates : ℕ := 100) : List Candidate :=
  let candidates := ((List.range numCandidates).drop 1).map (fun (i : ℕ) =>
    let x : ℚ := (i : ℚ) / (numCandidates : ℚ)
    let fwdElev := interpolateElevation routePoints (x * totalDistance)
    let revElev := interpolateElevation routePoints ((1 - x) * totalDistance)
    Candidate.mk x |(fwdElev - revElev)|)
  candidates.mergeSort (fun a b => decide (b.diff ≤ a.diff))

/-- `detectRouteDirection(svgPoints, routePoints, totalDistance)`
(content.js 271–317).  The JS `-getSvgYAtX(...)` coerces a `null` result
to `-0 = 0`, modelled by `Option.getD 0` before negation. -/
def detectRouteDirection (svgPoints : List ScreenPoint)
    (routePoints : List RoutePoint) (totalDistance : ℚ) : Direction :=
  let asymmetricPositions := findAsymmetricPositions routePoints totalDistance
  if (asymmetricPositions.headD default).diff < 1 then Direction.forward
  else
    let sampleXs := (asymmetricPositions.take 5).map (fun p => p.x)
    let svgElevs := sampleXs.map (fun x => -((getSvgYAtX svgPoints x).getD 0))
    let fwdElevs := sampleXs.map
      (fun x => interpolateElevation routePoints (x * totalDistance))
    let revElevs := sampleXs.map
      (fun x => interpolateElevation routePoints ((1 - x) * totalDistance))
    let svgNorm := normalizeArray svgElevs
    let fwdNorm := normalizeArray fwdElevs
    let revNorm := normalizeArray revElevs
    let fwdError := sumSquaredError svgNorm fwdNorm
    let revError := sumSquaredError svgNorm revNorm
    if fwdError ≤ revError then Direction.forward else Direction.reverse

/-- Value of one hexadecimal digit, as accepted by `parseInt(s, 16)`,
phrased on code points (48–57 = `0`–`9`, 97–102 = `a`–`f`, 65–70 =
`A`–`F`); non-digits map to an arbitrary value (JS would produce `NaN`,
which the claims exclude by requiring well-formed color stops). -/
def hexVal (c : Char) : ℕ :=
  if 48 ≤ c.toNat ∧ c.toNat ≤ 57 then c.toNat - 48
  else if 97 ≤ c.toNat ∧ c.toNat ≤ 102 then c.toNat - 87
  else if 65 ≤ c.toNat ∧ c.toNat ≤ 70 then c.toNat - 55
  else 0

/-- `parseInt(color.slice(i, i+2), 16)` for the two-character slices taken
by `lerpColor`; reads past the end of the string (JS `NaN`, excluded by
the claims) are modelled by the digit `'0'`. -/
def sliceHex (s : String) (i : ℕ) : ℕ :=
  16 * hexVal (s.toList.getD i '0') + hexVal (s.toList.getD (i + 1) '0')

/-- `Math.round`: JS rounds half toward positive infinity. -/
def jsRound (q : ℚ) : ℤ := ⌊q + 1 / 2⌋

/-- The lowercase digit characters emitted by `Number.toString(16)`. -/
def hexDigitChar (n : ℕ) : Char :=
  if n < 10 then Char.ofNat (Char.toNat '0' + n)
  else Char.ofNat (Char.toNat 'a' + (n - 10))

/-- `x.toString(16).padStart(2, '0')` for the range `0 ≤ x ≤ 255` that
`lerpColor` produces (theorem `jsRound_mem_range` below); a single digit
is left-padded with `'0'`, matching `n / 16 = 0`. -/
def toHex2 (n : ℤ) : String :=
  String.mk [hexDigitChar (n.toNat / 16), hexDigitChar (n.toNat % 16)]

/-- `lerpColor(color1, color2, t)` (content.js 320–334): parse the three
channel pairs of each `'#rrggbb'` string, round the channel-wise linear
interpolation, and re-emit lowercase hex. -/
def lerpColor (color1 color2 : String) (t : ℚ) : String :=
  let r1 : ℚ := sliceHex color1 1
  let g1 : ℚ := sliceHex color1 3
  let b1 : ℚ := sliceHex color1 5
  let r2 : ℚ := sliceHex color2 1
  let g2 : ℚ := sliceHex color2 3
  let b2 : ℚ := sliceHex color2 5
  let r := jsRound (r1 + (r2 - r1) * t)
  let g := jsRound (g1 + (g2 - g1) * t)
  let b := jsRound (b1 + (b2 - b1) * t)
  "#" ++ toHex2 r ++ toHex2 g ++ toHex2 b

/-- The band index computed by `gradientToColor` (content.js 171–172):
`Math.max(-3, Math.min(2, Math.floor(Math.max(-3, Math.min(3,
gradient / bandWidth)))))`. -/
def bandOf (bandWidth gradient : ℚ) : ℤ :=
  max (-3) (min 2 ⌊max (-3) (min 3 (gradient / bandWidth))⌋)

/-- `gradientToColor(gradient)` (content.js 170–175), with the two fields
of the global `settings` object (`colorStops`, `distance`) passed
explicitly.  `settings.colorStops[band + 3]` is a JS array read; the
index is in range whenever the stop list has 7 entries (C10). -/
def gradientToColor (colorStops : List String) (bandWidth gradient : ℚ) : String :=
  let normalized := max (-3) (min 3 (gradient / bandWidth))
  let band := bandOf bandWidth gradient
  let t := normalized - (band : ℚ)
  lerpColor (colorStops.getD (band + 3).toNat "") (colorStops.getD (band + 4).toNat "") t

/-- The `while (startIdx > 0 && elevationPoints[startIdx].x >
targetStartX) startIdx--` loop of the fallback path (content.js 452–454),
structural in the decreasing index. -/
def widenStart (eps : List ScreenPoint) (targetStartX : ℚ) : ℕ → ℕ
  | 0 => 0
  | k + 1 =>
    if targetStartX < (eps.getD (k + 1) default).x then widenStart eps targetStartX k
    else k + 1

/-- The `while (endIdx < elevationPoints.length - 1 &&
elevationPoints[endIdx].x < targetEndX) endIdx++` loop (content.js
456–459).  The index increases while staying below `eps.length - 1`, so
`fuel = eps.length` iterations always suffice. -/
def widenEnd (eps : List ScreenPoint) (targetEndX : ℚ) : ℕ → ℕ → ℕ
  | 0, endIdx => endIdx
  | fuel + 1, endIdx =>
    if endIdx + 1 < eps.length ∧ (eps.getD endIdx default).x < targetEndX then
      widenEnd eps targetEndX fuel (endIdx + 1)
    else endIdx

/-- `maxElev - minElev || 1` (content.js 382). -/
def elevRangeOf (minElev maxElev : ℚ) : ℚ :=
  if maxElev - minElev = 0 then 1 else maxElev - minElev

/-- `ySpan = (yMax - yMin) || 1` over the unfiltered polyline points
(content.js 385–387). -/
def ySpanOf (points : List ScreenPoint) : ℚ :=
  let yMin := listMin (points.map (fun p => p.y))
  let yMax := listMax (points.map (fun p => p.y))
  if yMax - yMin = 0 then 1 else yMax - yMin

/-- `elevationPoints = points.filter(p => p.y < 1)` (content.js 409):
drop the chart-baseline sentinel points. -/
def filteredPoints (points : List ScreenPoint) : List ScreenPoint :=
  points.filter (fun p => p.y < 1)

/-- `minDX = (yQuantum * elevRange * 100) / (ySpan *
maxGradientPerQuantum * totalDistance)` with `yQuantum = 0.001` and
`maxGradientPerQuantum = 1` (content.js 442–445). -/
def minDXOf (points : List ScreenPoint) (totalDistance minElev maxElev : ℚ) : ℚ :=
  1 / 1000 * elevRangeOf minElev maxElev * 100 / (ySpanOf points * 1 * totalDistance)

/-- The fallback (screen-space) branch of the builder loop (content.js
441–467): widen the pair to at least `minDX`, skip (`continue`) when the
widened span is not positive, otherwise convert the screen slope to a
gradient percentage. -/
def fallbackGradient (eps : List ScreenPoint)
    (minDX elevRange ySpan totalDistance : ℚ) (i : ℕ) : Option ℚ :=
  let p1 := eps.getD i default
  let p2 := eps.getD (i + 1) default
  let centerX := (p1.x + p2.x) / 2
  let startIdx := widenStart eps (centerX - minDX / 2) i
  let endIdx := widenEnd eps (centerX + minDX / 2) eps.length (i + 1)
  let pStart := eps.getD startIdx default
  let pEnd := eps.getD endIdx default
  let dY := pStart.y - pEnd.y
  let dX := pEnd.x - pStart.x
  if dX ≤ 0 then none
  else some (dY * elevRange / (ySpan * dX * totalDistance) * 100)

/-- One iteration of the builder loop of `processElevationSVG`
(content.js 425–484) at pair index `i`: `none` models `continue` (no
polygon emitted for the pair), `some` carries the pair and the signed
gradient passed to `gradientToColor`.  `useRouteData = routePoints &&
routePoints.length > 1`; the direction verdict is computed from the
filtered points exactly as at content.js 417–419. -/
def segmentSample (points : List ScreenPoint)
    (totalDistance minElev maxElev : ℚ) (routePoints : List RoutePoint)
    (i : ℕ) : Option GradientSample :=
  let eps := filteredPoints points
  let p1 := eps.getD i default
  let p2 := eps.getD (i + 1) default
  if 1 < routePoints.length then
    let isReversed := decide
      (detectRouteDirection eps routePoints totalDistance = Direction.reverse)
    let centerX := (p1.x + p2.x) / 2
    let distance := if isReversed then (1 - centerX) * totalDistance
      else centerX * totalDistance
    let g := computeGradientAtDistance routePoints distance totalDistance 50
    some ⟨p1, p2, if isReversed then -g else g⟩
  else
    (fallbackGradient eps (minDXOf points totalDistance minElev maxElev)
        (elevRangeOf minElev maxElev) (ySpanOf points) totalDistance i).map
      (fun g => ⟨p1, p2, g⟩)

/-- The whole builder loop `for (i = 0; i < elevationPoints.length - 1;
i++)` (content.js 425–484): one `segmentSample` per adjacent pair of
filtered points, in ascending order, skips dropped. -/
def buildSegments (points : List ScreenPoint)
    (totalDistance minElev maxElev : ℚ) (routePoints : List RoutePoint) :
    List GradientSample :=
  (List.range ((filteredPoints points).length - 1)).filterMap
    (segmentSample points totalDistance minElev maxElev routePoints)

/-- A route climbing linearly 10 m over each 100 m (sampled every 100 m
over a 400 m route), the scenario of the gradient-sign testable
property. -/
def climbRoute : List RoutePoint :=
  [⟨0, 0⟩, ⟨100, 10⟩, ⟨200, 20⟩, ⟨300, 30⟩, ⟨400, 40⟩]

/-- The reversed series of the gradient-sign property: distances mirrored
about `totalDistance`, elevations carried along, re-sorted ascending. -/
def mirrorSeries (routePoints : List RoutePoint) (totalDistance : ℚ) :
    List RoutePoint :=
  (routePoints.map (fun p => RoutePoint.mk (totalDistance - p.distance) p.elevation)).reverse

instance : Inhabited GradientSample := ⟨⟨default, default, 0⟩⟩

/-- A flat two-point series (perfectly symmetric under reversal). -/
def flatSeries : List RoutePoint := [⟨0, 50⟩, ⟨100, 50⟩]

/-- A strictly climbing two-point series (strongly asymmetric). -/
def steadyClimbSeries : List RoutePoint := [⟨0, 0⟩, ⟨100, 100⟩]

/-- A series containing a degenerate adjacent pair (two samples at
distance 5). -/
def degSeries : List RoutePoint := [⟨0, 10⟩, ⟨5, 20⟩, ⟨5, 21⟩, ⟨10, 30⟩]

/-- A 10%-ramp series used as a concrete probe input. -/
def rampSeries : List RoutePoint := [⟨0, 0⟩, ⟨100, 10⟩]

/-- A small concrete screen curve (all points above the baseline). -/
def screenCurve : List ScreenPoint := [⟨0, 1/2⟩, ⟨1/2, 1/4⟩, ⟨1, 3/4⟩]

/-- The sixteen lowercase hexadecimal digit characters, exactly the
alphabet `Number.toString(16)` emits (the image of `hexDigitChar` on
`0..15`). -/
def lowerHexDigits : List Char := (List.range 16).map hexDigitChar

/-- Well-formedness of a `'#rrggbb'` color string: a hash followed by
exactly six lowercase hex digits. -/
def isHexColorB (s : String) : Bool :=
  s.toList.headD ' ' == '#' && (s.toList.length == 7 &&
    (s.toList.drop 1).all (fun c => lowerHexDigits.contains c))

/-- `DEFAULT_SETTINGS.colorStops` (content.js 130). -/
def defaultColorStops : List String :=
  ["#713071", "#0c4ae0", "#28eaed", "#24ca26", "#f1f060", "#d90916", "#430102"]

theorem getLastD_eq_getD {α : Type _} (l : List α) (d : α) :
    l.getLastD d = l.getD (l.length - 1) d := by
  rw [List.getD_eq_getElem?_getD, List.getLastD_eq_getLast?, List.getLast?_eq_getElem?]

theorem getD_zero_eq_headD {α : Type _} (l : List α) (d : α) :
    l.getD 0 d = l.headD d := by
  cases l <;> rfl

theorem getD_mem_of_lt {α : Type _} (l : List α) (i : ℕ) (d : α)
    (h : i < l.length) : l.getD i d ∈ l := by
  rw [List.getD_eq_getElem l d h]
  exact List.getElem_mem h

/-- Loop invariant of the binary search in `interpolateElevation`: started
on a window `[lo, hi]` with `pts[lo].distance ≤ d < pts[hi].distance` and
enough fuel, it ends on an adjacent pair still satisfying the same
two-sided bound.  No sortedness of the series is assumed. -/
theorem searchGo_spec (pts : List RoutePoint) (d : ℚ) :
    ∀ fuel lo hi, lo < hi → hi - lo ≤ fuel + 1 →
      (pts.getD lo default).distance ≤ d →
      d < (pts.getD hi default).distance →
      (searchGo pts d fuel lo hi).2 = (searchGo pts d fuel lo hi).1 + 1 ∧
      lo ≤ (searchGo pts d fuel lo hi).1 ∧
      (searchGo pts d fuel lo hi).2 ≤ hi ∧
      (pts.getD (searchGo pts d fuel lo hi).1 default).distance ≤ d ∧
      d < (pts.getD (searchGo pts d fuel lo hi).2 default).distance := by
  intro fuel
  induction fuel with
  | zero =>
    intro lo hi hlt hsz hle hgt
    have h1 : hi = lo + 1 := by omega
    subst h1
    exact ⟨rfl, le_refl _, le_refl _, hle, hgt⟩
  | succ n ih =>
    intro lo hi hlt hsz hle hgt
    by_cases h : lo + 1 < hi
    · have hmid1 : lo < (lo + hi) / 2 := by omega
      have hmid2 : (lo + hi) / 2 < hi := by omega
      by_cases hc : (pts.getD ((lo + hi) / 2) default).distance ≤ d
      · have hrec := ih ((lo + hi) / 2) hi hmid2 (by omega) hc hgt
        have heq : searchGo pts d (n + 1) lo hi = searchGo pts d n ((lo + hi) / 2) hi := by
          simp only [searchGo, if_pos h, if_pos hc]
        rw [heq]
        exact ⟨hrec.1, le_trans (le_of_lt hmid1) hrec.2.1, hrec.2.2.1,
          hrec.2.2.2.1, hrec.2.2.2.2⟩
      · have hrec := ih lo ((lo + hi) / 2) hmid1 (by omega) hle (lt_of_not_le hc)
        have heq : searchGo pts d (n + 1) lo hi = searchGo pts d n lo ((lo + hi) / 2) := by
          simp only [searchGo, if_pos h, if_neg hc]
        rw [heq]
        exact ⟨hrec.1, hrec.2.1, le_trans hrec.2.2.1 (le_of_lt hmid2),
          hrec.2.2.2.1, hrec.2.2.2.2⟩
    · have h1 : hi = lo + 1 := by omega
      subst h1
      have heq : searchGo pts d (n + 1) lo (lo + 1) = (lo, lo + 1) := by
        simp only [searchGo, if_neg h]
      rw [heq]
      exact ⟨rfl, le_refl _, le_refl _, hle, hgt⟩

theorem two_le_length_of_interior (pts : List RoutePoint) (d : ℚ)
    (h0 : pts ≠ [])
    (h1 : (pts.headD default).distance < d)
    (h2 : d < (pts.getLastD default).distance) : 2 ≤ pts.length := by
  match pts with
  | [] => exact absurd rfl h0
  | [a] =>
    simp only [List.headD_cons, List.getLastD, List.getLast_singleton] at h1 h2
    linarith
  | a :: b :: tl =>
    simp only [List.length_cons]
    omega

/-- On the interior path (both clamps fail) `interpolateElevation` settles
on an adjacent bracket `r` with `pts[r.1].distance ≤ d <
pts[r.1 + 1].distance` and linearly interpolates there. -/
theorem interpolateElevation_interior (pts : List RoutePoint) (d : ℚ)
    (h0 : pts ≠ [])
    (h1 : (pts.headD default).distance < d)
    (h2 : d < (pts.getLastD default).distance) :
    (searchGo pts d pts.length 0 (pts.length - 1)).2 =
      (searchGo pts d pts.length 0 (pts.length - 1)).1 + 1 ∧
    (searchGo pts d pts.length 0 (pts.length - 1)).2 ≤ pts.length - 1 ∧
    (pts.getD (searchGo pts d pts.length 0 (pts.length - 1)).1 default).distance ≤ d ∧
    d < (pts.getD (searchGo pts d pts.length 0 (pts.length - 1)).2 default).distance ∧
    interpolateElevation pts d =
      (pts.getD (searchGo pts d pts.length 0 (pts.length - 1)).1 default).elevation +
        (d - (pts.getD (searchGo pts d pts.length 0 (pts.length - 1)).1 default).distance) /
          ((pts.getD (searchGo pts d pts.length 0 (pts.length - 1)).2 default).distance -
            (pts.getD (searchGo pts d pts.length 0 (pts.length - 1)).1 default).distance) *
          ((pts.getD (searchGo pts d pts.length 0 (pts.length - 1)).2 default).elevation -
            (pts.getD (searchGo pts d pts.length 0 (pts.length - 1)).1 default).elevation) := by
  have hlen : 2 ≤ pts.length := two_le_length_of_interior pts d h0 h1 h2
  have hspec := searchGo_spec pts d pts.length 0 (pts.length - 1)
    (by omega) (by omega)
    (by rw [getD_zero_eq_headD]; exact le_of_lt h1)
    (by rw [← getLastD_eq_getD]; exact h2)
  have hinterp : interpolateElevation pts d =
      (pts.getD (searchGo pts d pts.length 0 (pts.length - 1)).1 default).elevation +
        (d - (pts.getD (searchGo pts d pts.length 0 (pts.length - 1)).1 default).distance) /
          ((pts.getD (searchGo pts d pts.length 0 (pts.length - 1)).2 default).distance -
            (pts.getD (searchGo pts d pts.length 0 (pts.length - 1)).1 default).distance) *
          ((pts.getD (searchGo pts d pts.length 0 (pts.length - 1)).2 default).elevation -
            (pts.getD (searchGo pts d pts.length 0 (pts.length - 1)).1 default).elevation) := by
    rw [interpolateElevation]
    rw [if_neg (by simp [h0]), if_neg (not_le.mpr h1), if_neg (not_le.mpr h2)]
  exact ⟨hspec.1, hspec.2.2.1, hspec.2.2.2.1, hspec.2.2.2.2, hinterp⟩

theorem pairwise_distance_lt (pts : List RoutePoint)
    (hsort : List.Pairwise (fun p q : RoutePoint => p.distance < q.distance) pts)
    (i j : ℕ) (hij : i < j) (hj : j < pts.length) :
    (pts.getD i default).distance < (pts.getD j default).distance := by
  rw [List.getD_eq_getElem pts default (lt_trans hij hj), List.getD_eq_getElem pts default hj]
  exact (List.pairwise_iff_getElem.mp hsort) i j (lt_trans hij hj) hj hij

/-- C4: for every series containing a degenerate bracket and every query
strictly inside the series' distance range, `interpolateElevation` does
not divide by zero.  The search in fact never resolves to a degenerate
bracket: for ANY series (sorted or not) the bracket `r` it settles on
satisfies `pts[r.1].distance ≤ d < pts[r.2].distance`, so the
interpolation denominator is nonzero, and the claim's degenerate-bracket
clause (last conjunct) holds vacuously, with the `t = 0` reading
witnessed by the `ℚ` convention in the embedding. -/
theorem C4_no_div_by_zero (pts : List RoutePoint) (d : ℚ)
    (h0 : pts ≠ [])
    (h1 : (pts.headD default).distance < d)
    (h2 : d < (pts.getLastD default).distance) :
    (pts.getD (searchGo pts d pts.length 0 (pts.length - 1)).1 default).distance ≤ d ∧
    d < (pts.getD (searchGo pts d pts.length 0 (pts.length - 1)).2 default).distance ∧
    (pts.getD (searchGo pts d pts.length 0 (pts.length - 1)).2 default).distance -
      (pts.getD (searchGo pts d pts.length 0 (pts.length - 1)).1 default).distance ≠ 0 ∧
    ((pts.getD (searchGo pts d pts.length 0 (pts.length - 1)).2 default).distance =
        (pts.getD (searchGo pts d pts.length 0 (pts.length - 1)).1 default).distance →
      interpolateElevation pts d =
        (pts.getD (searchGo pts d pts.length 0 (pts.length - 1)).1 default).elevation) := by
  obtain ⟨hadj, hle, hlo, hhi, hval⟩ := interpolateElevation_interior pts d h0 h1 h2
  refine ⟨hlo, hhi, ?_, ?_⟩
  · have : (pts.getD (searchGo pts d pts.length 0 (pts.length - 1)).1 default).distance <
        (pts.getD (searchGo pts d pts.length 0 (pts.length - 1)).2 default).distance :=
      lt_of_le_of_lt hlo hhi
    exact sub_ne_zero.mpr (ne_of_gt this)
  · intro heq
    exact absurd heq (ne_of_gt (lt_of_le_of_lt hlo hhi))

/-- Witness for C4 at a concrete series with a degenerate pair and a
concrete interior query. -/
theorem C4_witness :
    (degSeries.getD (searchGo degSeries 7 degSeries.length 0 (degSeries.length - 1)).1
      default).distance ≤ 7 ∧
    (7:ℚ) < (degSeries.getD (searchGo degSeries 7 degSeries.length 0
      (degSeries.length - 1)).2 default).distance ∧
    (degSeries.getD (searchGo degSeries 7 degSeries.length 0 (degSeries.length - 1)).2
        default).distance -
      (degSeries.getD (searchGo degSeries 7 degSeries.length 0 (degSeries.length - 1)).1
        default).distance ≠ 0 ∧
    ((degSeries.getD (searchGo degSeries 7 degSeries.length 0 (degSeries.length - 1)).2
        default).distance =
      (degSeries.getD (searchGo degSeries 7 degSeries.length 0 (degSeries.length - 1)).1
        default).distance →
      interpolateElevation degSeries 7 =
        (degSeries.getD (searchGo degSeries 7 degSeries.length 0 (degSeries.length - 1)).1
          default).elevation) :=
  C4_no_div_by_zero degSeries 7 (by simp [degSeries])
    (by norm_num [degSeries]) (by norm_num [degSeries, List.getLastD])

/-- C5: for a non-empty, strictly increasing-by-distance series,
`interpolateElevation` clamps to the first sample's elevation below the
range, clamps to the last sample's elevation above the range, and
reproduces every sample's elevation exactly at its distance. -/
theorem C5_clamp_and_exact (pts : List RoutePoint)
    (h0 : pts ≠ [])
    (hsort : List.Pairwise (fun p q : RoutePoint => p.distance < q.distance) pts) :
    (∀ d : ℚ, d ≤ (pts.headD default).distance →
      interpolateElevation pts d = (pts.headD default).elevation) ∧
    (∀ d : ℚ, (pts.getLastD default).distance ≤ d →
      interpolateElevation pts d = (pts.getLastD default).elevation) ∧
    (∀ j, j < pts.length →
      interpolateElevation pts (pts.getD j default).distance =
        (pts.getD j default).elevation) := by
  have hlen1 : 1 ≤ pts.length := by
    cases pts with
    | nil => exact absurd rfl h0
    | cons a tl => simp
  have hemp : ¬ (pts.isEmpty = true) := by simp [h0]
  refine ⟨?_, ?_, ?_⟩
  · intro d hd
    rw [interpolateElevation, if_neg hemp, if_pos hd]
  · intro d hd
    by_cases hd0 : d ≤ (pts.headD default).distance
    · rw [interpolateElevation, if_neg hemp, if_pos hd0]
      rcases Nat.lt_or_ge pts.length 2 with hl | hl
      · have hone : pts.length = 1 := by omega
        have : pts.headD default = pts.getLastD default := by
          rw [← getD_zero_eq_headD, getLastD_eq_getD, hone]
        rw [this]
      · have hlt : (pts.getD 0 default).distance <
            (pts.getD (pts.length - 1) default).distance :=
          pairwise_distance_lt pts hsort 0 (pts.length - 1) (by omega) (by omega)
        rw [getD_zero_eq_headD, ← getLastD_eq_getD] at hlt
        linarith
    · rw [interpolateElevation, if_neg hemp, if_neg hd0, if_pos hd]
  · intro j hj
    by_cases hA : (pts.getD j default).distance ≤ (pts.headD default).distance
    · have hj0 : j = 0 := by
        by_contra hne
        have : (pts.getD 0 default).distance < (pts.getD j default).distance :=
          pairwise_distance_lt pts hsort 0 j (by omega) hj
        rw [getD_zero_eq_headD] at this
        linarith
    
      subst hj0
      rw [interpolateElevation, if_neg hemp, if_pos hA, getD_zero_eq_headD]
    · by_cases hB : (pts.getLastD default).distance ≤ (pts.getD j default).distance
      · have hjl : j = pts.length - 1 := by
          by_contra hne
          have : (pts.getD j default).distance <
              (pts.getD (pts.length - 1) default).distance :=
            pairwise_distance_lt pts hsort j (pts.length - 1) (by omega) (by omega)
          rw [← getLastD_eq_getD] at this
          linarith
        rw [interpolateElevation, if_neg hemp, if_neg hA, if_pos hB, hjl,
          ← getLastD_eq_getD]
      · have h1 : (pts.headD default).distance < (pts.getD j default).distance :=
          not_le.mp hA
        have h2 : (pts.getD j default).distance < (pts.getLastD default).distance :=
          not_le.mp hB
        obtain ⟨hadj, hle, hlo, hhi, hval⟩ :=
          interpolateElevation_interior pts (pts.getD j default).distance h0 h1 h2
        have hlen2 : 2 ≤ pts.length :=
          two_le_length_of_interior pts (pts.getD j default).distance h0 h1 h2
        set r := searchGo pts (pts.getD j default).distance pts.length 0 (pts.length - 1)
          with hr
        have hjr : j = r.1 := by
          rcases Nat.lt_trichotomy j r.1 with hlt | heq | hgt
          · have : (pts.getD j default).distance < (pts.getD r.1 default).distance :=
              pairwise_distance_lt pts hsort j r.1 hlt (by omega)
            linarith
          · exact heq
          · have hge2 : r.2 ≤ j := by omega
            rcases Nat.eq_or_lt_of_le hge2 with heq2 | hlt2
            · rw [heq2] at hhi
              linarith
            · have : (pts.getD r.2 default).distance < (pts.getD j default).distance :=
                pairwise_distance_lt pts hsort r.2 j hlt2 hj
              linarith
        rw [hval, ← hjr]
        rw [sub_self, zero_div, zero_mul, add_zero]

/-- Witness for C5 at the concrete strictly increasing series
`climbRoute`. -/
theorem C5_witness :
    (∀ d : ℚ, d ≤ (climbRoute.headD default).distance →
      interpolateElevation climbRoute d = (climbRoute.headD default).elevation) ∧
    (∀ d : ℚ, (climbRoute.getLastD default).distance ≤ d →
      interpolateElevation climbRoute d = (climbRoute.getLastD default).elevation) ∧
    (∀ j, j < climbRoute.length →
      interpolateElevation climbRoute (climbRoute.getD j default).distance =
        (climbRoute.getD j default).elevation) :=
  C5_clamp_and_exact climbRoute (by simp [climbRoute])
    (by norm_num [climbRoute, List.pairwise_cons])

/-- Counterexample to C3: at `distance = 0` with `windowSize =
totalDistance = 100` on a 10%-ramp, the window is `[0, 100]`, so `d2 - d1
= 100 > 0`, the zero-guard does not fire, and the result is the
whole-route mean gradient `10`, not `0`. -/
theorem C3_counterexample :
    computeGradientAtDistance rampSeries 0 100 100 = 10 ∧ (10 : ℚ) ≠ 0 := by
  constructor
  · norm_num [computeGradientAtDistance, interpolateElevation, searchGo,
      rampSeries, List.getLastD, max_def, min_def]
  · norm_num

/-- C3 amended: at `distance = 0` with `windowSize ≥ totalDistance > 0`
on a non-empty series, `computeGradientAtDistance` never divides by zero
or errors, but it returns the whole-route mean gradient
`(elevationAt(totalDistance) - elevationAt(0)) / totalDistance * 100`
(which is `0` only when the endpoint elevations coincide); the zero
short-circuit fires only when `d2 - d1 ≤ 0`, which at `distance = 0`
requires `totalDistance ≤ 0`. -/
theorem C3_amended (pts : List RoutePoint) (total w : ℚ) (h0 : pts ≠ [])
    (ht : 0 < total) (hw : total ≤ w) :
    computeGradientAtDistance pts 0 total w =
      (interpolateElevation pts total - interpolateElevation pts 0) / total * 100 := by
  have h1 : max (0:ℚ) (0 - w) = 0 := max_eq_left (by linarith)
  have h2 : min total (0 + w) = total := min_eq_left (by linarith)
  unfold computeGradientAtDistance
  rw [h1, h2, if_neg (by linarith : ¬ total - 0 ≤ 0), sub_zero]

/-- Witness for the amended C3 at the concrete ramp. -/
theorem C3_witness :
    computeGradientAtDistance rampSeries 0 100 100 =
      (interpolateElevation rampSeries 100 - interpolateElevation rampSeries 0) /
        100 * 100 :=
  C3_amended rampSeries 100 100 (by simp [rampSeries]) (by norm_num) (by norm_num)

/-- C6: on a route climbing linearly 10 m per 100 m, the windowed gradient
at the midpoint (window fully inside the climb) is `+10` percent, and on
the mirrored series (distances mirrored about the total distance,
elevations carried along) the same query yields `-10`. -/
theorem C6_gradient_sign_mirror :
    computeGradientAtDistance climbRoute 200 400 50 = 10 ∧
    computeGradientAtDistance (mirrorSeries climbRoute 400) 200 400 50 = -10 := by
  constructor
  · norm_num [computeGradientAtDistance, interpolateElevation, searchGo,
      climbRoute, List.getLastD, max_def, min_def]
  · norm_num [computeGradientAtDistance, interpolateElevation, searchGo,
      climbRoute, mirrorSeries, List.getLastD, max_def, min_def]

theorem headD_mem {α : Type _} [Inhabited α] (l : List α) (h : l ≠ []) :
    l.headD default ∈ l := by
  obtain ⟨a, t, rfl⟩ := List.exists_cons_of_ne_nil h
  simp

theorem mergeSort_head_mem (l : List Candidate) (h : l ≠ []) :
    (l.mergeSort (fun a b => decide (b.diff ≤ a.diff))).headD default ∈ l := by
  have hperm := List.mergeSort_perm l (fun a b => decide (b.diff ≤ a.diff))
  have hne : l.mergeSort (fun a b => decide (b.diff ≤ a.diff)) ≠ [] := by
    intro hnil
    have hlen := hperm.length_eq
    rw [hnil] at hlen
    exact h (List.length_eq_zero.mp hlen.symm)
  exact hperm.mem_iff.mp (headD_mem _ hne)

/-- The descending stable sort of `findAsymmetricPositions` puts a
maximal-`diff` candidate first. -/
theorem mergeSort_head_ge (l : List Candidate) (c : Candidate)
    (hc : c ∈ l.mergeSort (fun a b => decide (b.diff ≤ a.diff))) :
    c.diff ≤ ((l.mergeSort (fun a b => decide (b.diff ≤ a.diff))).headD default).diff := by
  have hs : List.Pairwise
      (fun a b : Candidate => decide (b.diff ≤ a.diff) = true)
      (l.mergeSort (fun a b => decide (b.diff ≤ a.diff))) := by
    refine List.sorted_mergeSort ?_ ?_ l
    · intro a b c h1 h2
      simp only [decide_eq_true_eq] at h1 h2 ⊢
      exact le_trans h2 h1
    · intro a b
      simp only [Bool.or_eq_true, decide_eq_true_eq]
      exact le_total b.diff a.diff
  obtain ⟨h, t, hht⟩ := List.exists_cons_of_ne_nil (List.ne_nil_of_mem hc)
  rw [hht] at hs hc ⊢
  rw [List.pairwise_cons] at hs
  rw [List.headD_cons]
  rcases List.mem_cons.mp hc with rfl | hmem
  · exact le_refl _
  · have := hs.1 c hmem
    simpa using this

theorem head_diff_lt_of_all (l : List Candidate) (bound : ℚ) (h : l ≠ [])
    (hall : ∀ c ∈ l, c.diff < bound) :
    ((l.mergeSort (fun a b => decide (b.diff ≤ a.diff))).headD default).diff < bound :=
  hall _ (mergeSort_head_mem l h)

theorem head_diff_ge_of_mem (l : List Candidate) (c : Candidate) (bound : ℚ)
    (hc : c ∈ l) (hb : bound ≤ c.diff) :
    bound ≤ ((l.mergeSort (fun a b => decide (b.diff ≤ a.diff))).headD default).diff :=
  le_trans hb (mergeSort_head_ge l c ((List.mergeSort_perm l _).mem_iff.mpr hc))

/-- C1: whenever every one of the 99 probed positions shows a
forward/reverse elevation difference strictly below 1 m (i.e. the maximal
difference is below 1 m), `detectRouteDirection` answers `forward`, for
every supplied screen curve. -/
theorem C1_symmetric_forward (svgPoints : List ScreenPoint)
    (pts : List RoutePoint) (total : ℚ)
    (hfull : 2 ≤ pts.length)
    (hsym : ∀ i : ℕ, 1 ≤ i → i < 100 →
      |interpolateElevation pts ((i : ℚ) / 100 * total) -
        interpolateElevation pts ((1 - (i : ℚ) / 100) * total)| < 1) :
    detectRouteDirection svgPoints pts total = Direction.forward := by
  have hdropeq : (List.range 100).drop 1 = List.range' 1 99 := by
    rw [List.range_eq_range']
    rfl
  simp only [detectRouteDirection, findAsymmetricPositions]
  split_ifs with h1 h2
  · rfl
  · rfl
  · exfalso
    apply h1
    apply head_diff_lt_of_all
    · refine List.length_pos.mp ?_
      simp
    · intro c hc
      rw [List.mem_map] at hc
      obtain ⟨i, hi, rfl⟩ := hc
      rw [hdropeq, List.mem_range'] at hi
      obtain ⟨k, hk, rfl⟩ := hi
      simpa using hsym (1 + 1 * k) (by omega) (by omega)

theorem interp_flat (d : ℚ) : interpolateElevation flatSeries d = 50 := by
  rw [interpolateElevation]
  split_ifs with h1 h2 h3
  · simp [flatSeries] at h1
  · norm_num [flatSeries]
  · norm_num [flatSeries, List.getLastD]
  · norm_num [flatSeries, searchGo, List.getLastD]

/-- Witness for C1: the flat two-point series is symmetric, so the
verdict is `forward` for the concrete screen curve. -/
theorem C1_witness :
    detectRouteDirection screenCurve flatSeries 100 = Direction.forward := by
  refine C1_symmetric_forward screenCurve flatSeries 100 (by norm_num [flatSeries]) ?_
  intro i h1 h2
  rw [interp_flat, interp_flat]
  norm_num

/-- C2: when the maximal forward/reverse asymmetry over the 99 probed
positions reaches 1 m, `detectRouteDirection` answers `forward` exactly
when the sum of squared differences between the normalized observed
sequence and the normalized forward-candidate sequence is at most the sum
against the normalized reverse-candidate sequence (so an exact tie gives
`forward`). -/
theorem C2_error_tie_forward (svgPoints : List ScreenPoint)
    (pts : List RoutePoint) (total : ℚ)
    (hasym : ∃ i : ℕ, 1 ≤ i ∧ i < 100 ∧
      1 ≤ |interpolateElevation pts ((i : ℚ) / 100 * total) -
            interpolateElevation pts ((1 - (i : ℚ) / 100) * total)|) :
    (detectRouteDirection svgPoints pts total = Direction.forward ↔
      sumSquaredError
        (normalizeArray ((((findAsymmetricPositions pts total).take 5).map
            (fun p => p.x)).map (fun x => -((getSvgYAtX svgPoints x).getD 0))))
        (normalizeArray ((((findAsymmetricPositions pts total).take 5).map
            (fun p => p.x)).map (fun x => interpolateElevation pts (x * total)))) ≤
      sumSquaredError
        (normalizeArray ((((findAsymmetricPositions pts total).take 5).map
            (fun p => p.x)).map (fun x => -((getSvgYAtX svgPoints x).getD 0))))
        (normalizeArray ((((findAsymmetricPositions pts total).take 5).map
            (fun p => p.x)).map (fun x => interpolateElevation pts ((1 - x) * total))))) := by
  obtain ⟨i, h1i, h2i, hge⟩ := hasym
  have hdropeq : (List.range 100).drop 1 = List.range' 1 99 := by
    rw [List.range_eq_range']
    rfl
  have hhead : 1 ≤ ((findAsymmetricPositions pts total).headD default).diff := by
    rw [findAsymmetricPositions]
    refine head_diff_ge_of_mem _
      (Candidate.mk ((i : ℚ) / ((100 : ℕ) : ℚ))
        |(interpolateElevation pts (((i : ℚ) / ((100 : ℕ) : ℚ)) * total) -
          interpolateElevation pts ((1 - (i : ℚ) / ((100 : ℕ) : ℚ)) * total))|) _ ?_ ?_
    · refine List.mem_map.mpr ⟨i, ?_, rfl⟩
      rw [hdropeq, List.mem_range']
      exact ⟨i - 1, by omega, by omega⟩
    · simpa using hge
  simp only [detectRouteDirection]
  rw [if_neg (not_lt.mpr hhead)]
  split_ifs with hcmp
  · exact iff_of_true rfl hcmp
  · exact iff_of_false (by simp) hcmp

/-- Witness for C2 at a strongly asymmetric concrete series. -/
theorem C2_witness :
    (detectRouteDirection screenCurve steadyClimbSeries 100 = Direction.forward ↔
      sumSquaredError
        (normalizeArray ((((findAsymmetricPositions steadyClimbSeries 100).take 5).map
            (fun p => p.x)).map (fun x => -((getSvgYAtX screenCurve x).getD 0))))
        (normalizeArray ((((findAsymmetricPositions steadyClimbSeries 100).take 5).map
            (fun p => p.x)).map
            (fun x => interpolateElevation steadyClimbSeries (x * 100)))) ≤
      sumSquaredError
        (normalizeArray ((((findAsymmetricPositions steadyClimbSeries 100).take 5).map
            (fun p => p.x)).map (fun x => -((getSvgYAtX screenCurve x).getD 0))))
        (normalizeArray ((((findAsymmetricPositions steadyClimbSeries 100).take 5).map
            (fun p => p.x)).map
            (fun x => interpolateElevation steadyClimbSeries ((1 - x) * 100))))) :=
  C2_error_tie_forward screenCurve steadyClimbSeries 100
    ⟨1, le_refl 1, by norm_num,
      by norm_num [interpolateElevation, steadyClimbSeries, searchGo, List.getLastD]⟩

theorem filterMap_all_some {α β : Type _} (f : α → Option β) (g : α → β) :
    ∀ l : List α, (∀ a ∈ l, f a = some (g a)) → l.filterMap f = l.map g := by
  intro l
  induction l with
  | nil => intro _; rfl
  | cons a t ih =>
    intro h
    rw [List.map_cons, List.filterMap_cons_some (h a (List.mem_cons_self a t)),
      ih (fun x hx => h x (List.mem_cons_of_mem a hx))]

theorem filterMap_sublist_map {α β : Type _} (f : α → Option β) (g : α → β) :
    ∀ l : List α, (∀ a ∈ l, ∀ b, f a = some b → b = g a) →
      (l.filterMap f).Sublist (l.map g) := by
  intro l
  induction l with
  | nil => intro _; simp
  | cons a t ih =>
    intro h
    rw [List.map_cons]
    cases hfa : f a with
    | none =>
      rw [List.filterMap_cons_none hfa]
      exact List.Sublist.cons _ (ih (fun x hx b hb => h x (List.mem_cons_of_mem a hx) b hb))
    | some b =>
      rw [List.filterMap_cons_some hfa]
      rw [h a (List.mem_cons_self a t) b hfa]
      exact List.Sublist.cons₂ _ (ih (fun x hx b2 hb => h x (List.mem_cons_of_mem a hx) b2 hb))

theorem getD_map_range {α : Type _} [Inhabited α] (n i : ℕ) (g : ℕ → α) (hi : i < n) :
    ((List.range n).map g).getD i default = g i := by
  rw [List.getD_eq_getElem?_getD, List.getElem?_map, List.getElem?_range hi,
    Option.map_some', Option.getD_some]

/-- C7: with a full-resolution series (`routePoints.length > 1`), the
builder emits exactly one sample per adjacent pair of filtered points, and
the sample's gradient is the windowed estimator at `centerX·total` for a
`forward` verdict, and the negated estimator at `(1−centerX)·total` for a
`reverse` verdict. -/
theorem C7_full_res_mapping (points : List ScreenPoint)
    (total minElev maxElev : ℚ) (routePoints : List RoutePoint)
    (hfull : 1 < routePoints.length) :
    (buildSegments points total minElev maxElev routePoints).length =
      (filteredPoints points).length - 1 ∧
    ∀ i, i < (filteredPoints points).length - 1 →
      ((buildSegments points total minElev maxElev routePoints).getD i default).gradient =
        (if detectRouteDirection (filteredPoints points) routePoints total = Direction.reverse
         then -(computeGradientAtDistance routePoints
            ((1 - (((filteredPoints points).getD i default).x +
              ((filteredPoints points).getD (i + 1) default).x) / 2) * total) total 50)
         else computeGradientAtDistance routePoints
            ((((filteredPoints points).getD i default).x +
              ((filteredPoints points).getD (i + 1) default).x) / 2 * total) total 50) := by
  have hbuild : buildSegments points total minElev maxElev routePoints =
      (List.range ((filteredPoints points).length - 1)).map (fun i =>
        GradientSample.mk ((filteredPoints points).getD i default)
          ((filteredPoints points).getD (i + 1) default)
          (if detectRouteDirection (filteredPoints points) routePoints total =
              Direction.reverse
           then -(computeGradientAtDistance routePoints
              ((1 - (((filteredPoints points).getD i default).x +
                ((filteredPoints points).getD (i + 1) default).x) / 2) * total) total 50)
           else computeGradientAtDistance routePoints
              ((((filteredPoints points).getD i default).x +
                ((filteredPoints points).getD (i + 1) default).x) / 2 * total) total 50)) := by
    rw [buildSegments]
    apply filterMap_all_some
    intro i _
    simp only [segmentSample]
    rw [if_pos hfull]
    by_cases hdir : detectRouteDirection (filteredPoints points) routePoints total =
        Direction.reverse
    · simp [hdir]
    · simp [hdir]
  constructor
  · rw [hbuild, List.length_map, List.length_range]
  · intro i hi
    rw [hbuild, getD_map_range _ _ _ hi]

/-- Witness for C7 at concrete inputs. -/
theorem C7_witness :
    (buildSegments screenCurve 100 0 100 steadyClimbSeries).length =
      (filteredPoints screenCurve).length - 1 ∧
    ∀ i, i < (filteredPoints screenCurve).length - 1 →
      ((buildSegments screenCurve 100 0 100 steadyClimbSeries).getD i default).gradient =
        (if detectRouteDirection (filteredPoints screenCurve) steadyClimbSeries 100 =
            Direction.reverse
         then -(computeGradientAtDistance steadyClimbSeries
            ((1 - (((filteredPoints screenCurve).getD i default).x +
              ((filteredPoints screenCurve).getD (i + 1) default).x) / 2) * 100) 100 50)
         else computeGradientAtDistance steadyClimbSeries
            ((((filteredPoints screenCurve).getD i default).x +
              ((filteredPoints screenCurve).getD (i + 1) default).x) / 2 * 100) 100 50) :=
  C7_full_res_mapping screenCurve 100 0 100 steadyClimbSeries
    (by norm_num [steadyClimbSeries])

/-- C8: the builder is total (no exceptions in the embedding), emits at
most `k − 1` samples for `k` filtered points — at most one per adjacent
pair, in ascending order (the emitted pair list is a sublist of the
adjacent-pair list) — and a fallback pair whose widened span `dX` is not
positive is skipped and contributes no sample. -/
theorem C8_segment_coverage (points : List ScreenPoint)
    (total minElev maxElev : ℚ) (routePoints : List RoutePoint) :
    (buildSegments points total minElev maxElev routePoints).length ≤
      (filteredPoints points).length - 1 ∧
    ((buildSegments points total minElev maxElev routePoints).map
        (fun s => (s.p1, s.p2))).Sublist
      ((List.range ((filteredPoints points).length - 1)).map (fun i =>
        ((filteredPoints points).getD i default,
         (filteredPoints points).getD (i + 1) default))) ∧
    ∀ i, routePoints.length ≤ 1 →
      ((filteredPoints points).getD
          (widenEnd (filteredPoints points)
            ((((filteredPoints points).getD i default).x +
                ((filteredPoints points).getD (i + 1) default).x) / 2 +
              minDXOf points total minElev maxElev / 2)
            (filteredPoints points).length (i + 1)) default).x -
        ((filteredPoints points).getD
          (widenStart (filteredPoints points)
            ((((filteredPoints points).getD i default).x +
                ((filteredPoints points).getD (i + 1) default).x) / 2 -
              minDXOf points total minElev maxElev / 2) i) default).x ≤ 0 →
      segmentSample points total minElev maxElev routePoints i = none := by
  refine ⟨?_, ?_, ?_⟩
  · rw [buildSegments]
    refine le_trans (List.length_filterMap_le _ _) ?_
    rw [List.length_range]
  · rw [buildSegments, List.map_filterMap]
    apply filterMap_sublist_map
    intro i _ b hb
    simp only [segmentSample] at hb
    by_cases hfull : 1 < routePoints.length
    · rw [if_pos hfull] at hb
      simp only [Option.map_some'] at hb
      exact (Option.some_injective _ hb).symm
    · rw [if_neg hfull] at hb
      cases hfb : fallbackGradient (filteredPoints points)
          (minDXOf points total minElev maxElev) (elevRangeOf minElev maxElev)
          (ySpanOf points) total i with
      | none => rw [hfb] at hb; simp at hb
      | some g =>
        rw [hfb] at hb
        simp only [Option.map_some'] at hb
        exact (Option.some_injective _ hb).symm
  · intro i hcoarse hdx
    simp only [segmentSample]
    rw [if_neg (by omega : ¬ 1 < routePoints.length)]
    have hfb : fallbackGradient (filteredPoints points)
        (minDXOf points total minElev maxElev) (elevRangeOf minElev maxElev)
        (ySpanOf points) total i = none := by
      simp only [fallbackGradient]
      rw [if_pos hdx]
    rw [hfb]
    rfl

/-- Witness for C8 at concrete inputs. -/
theorem C8_witness :
    (buildSegments screenCurve 100 0 100 steadyClimbSeries).length ≤
      (filteredPoints screenCurve).length - 1 ∧
    ((buildSegments screenCurve 100 0 100 steadyClimbSeries).map
        (fun s => (s.p1, s.p2))).Sublist
      ((List.range ((filteredPoints screenCurve).length - 1)).map (fun i =>
        ((filteredPoints screenCurve).getD i default,
         (filteredPoints screenCurve).getD (i + 1) default))) ∧
    ∀ i, steadyClimbSeries.length ≤ 1 →
      ((filteredPoints screenCurve).getD
          (widenEnd (filteredPoints screenCurve)
            ((((filteredPoints screenCurve).getD i default).x +
                ((filteredPoints screenCurve).getD (i + 1) default).x) / 2 +
              minDXOf screenCurve 100 0 100 / 2)
            (filteredPoints screenCurve).length (i + 1)) default).x -
        ((filteredPoints screenCurve).getD
          (widenStart (filteredPoints screenCurve)
            ((((filteredPoints screenCurve).getD i default).x +
                ((filteredPoints screenCurve).getD (i + 1) default).x) / 2 -
              minDXOf screenCurve 100 0 100 / 2) i) default).x ≤ 0 →
      segmentSample screenCurve 100 0 100 steadyClimbSeries i = none :=
  C8_segment_coverage screenCurve 100 0 100 steadyClimbSeries

/-- C9: the builder is deterministic — two invocations on identical
screen points, identical elevation data, and hence the identical resolved
direction (the verdict is itself a function of these inputs) produce
identical output sequences.  In the embedding the loop is a pure
function, so this is definitional; the JS loop reads no other state than
its inputs while producing the gradient sequence. -/
theorem C9_deterministic (points points2 : List ScreenPoint)
    (total total2 minElev minElev2 maxElev maxElev2 : ℚ)
    (routePoints routePoints2 : List RoutePoint)
    (hp : points = points2) (ht : total = total2) (hmin : minElev = minElev2)
    (hmax : maxElev = maxElev2) (hr : routePoints = routePoints2) :
    buildSegments points total minElev maxElev routePoints =
      buildSegments points2 total2 minElev2 maxElev2 routePoints2 := by
  subst hp
  subst ht
  subst hmin
  subst hmax
  subst hr
  rfl

/-- Witness for C9 at concrete inputs. -/
theorem C9_witness :
    buildSegments screenCurve 100 0 100 steadyClimbSeries =
      buildSegments screenCurve 100 0 100 steadyClimbSeries :=
  C9_deterministic screenCurve screenCurve 100 100 0 0 100 100
    steadyClimbSeries steadyClimbSeries rfl rfl rfl rfl rfl

theorem string_ext_data (s t : String) (h : s.data = t.data) : s = t := by
  cases s
  cases t
  exact congrArg String.mk h

theorem hexVal_le (c : Char) : hexVal c ≤ 15 := by
  unfold hexVal
  split_ifs <;> omega

theorem hexDigitChar_hexVal : ∀ c ∈ lowerHexDigits, hexDigitChar (hexVal c) = c := by
  decide

theorem hexDigitChar_mem : ∀ n : ℕ, n < 16 → hexDigitChar n ∈ lowerHexDigits := by
  decide

theorem sliceHex_le (s : String) (i : ℕ) : sliceHex s i ≤ 255 := by
  unfold sliceHex
  have h1 := hexVal_le (s.toList.getD i '0')
  have h2 := hexVal_le (s.toList.getD (i + 1) '0')
  omega

theorem jsRound_intCast (n : ℤ) : jsRound ((n : ℚ)) = n := by
  unfold jsRound
  rw [add_comm, Int.floor_add_int]
  norm_num

theorem jsRound_natCast (n : ℕ) : jsRound ((n : ℚ)) = (n : ℤ) := by
  have h := jsRound_intCast ((n : ℤ))
  rw [← h]
  norm_num

theorem jsRound_range (q : ℚ) (h0 : 0 ≤ q) (h255 : q ≤ 255) :
    0 ≤ jsRound q ∧ jsRound q ≤ 255 := by
  unfold jsRound
  constructor
  · exact Int.le_floor.mpr (by push_cast; linarith)
  · have h2 := Int.floor_le_floor (show q + 1 / 2 ≤ (255:ℚ) + 1 / 2 by linarith)
    have h3 : ⌊(255:ℚ) + 1 / 2⌋ = 255 := by norm_num
    omega

theorem channel_range (r1 r2 : ℕ) (t : ℚ) (h0 : 0 ≤ t) (h1 : t ≤ 1)
    (hr1 : r1 ≤ 255) (hr2 : r2 ≤ 255) :
    0 ≤ (r1:ℚ) + ((r2:ℚ) - r1) * t ∧ (r1:ℚ) + ((r2:ℚ) - r1) * t ≤ 255 := by
  have c1 : (0:ℚ) ≤ r1 := Nat.cast_nonneg r1
  have c2 : (0:ℚ) ≤ r2 := Nat.cast_nonneg r2
  have c3 : (r1:ℚ) ≤ 255 := by exact_mod_cast hr1
  have c4 : (r2:ℚ) ≤ 255 := by exact_mod_cast hr2
  constructor <;> nlinarith

theorem toHex2_toList (n : ℤ) :
    (toHex2 n).toList = [hexDigitChar (n.toNat / 16), hexDigitChar (n.toNat % 16)] := rfl

theorem toHex2_length (n : ℤ) : (toHex2 n).length = 2 := rfl

theorem toHex2_digit_mem (n : ℤ) (h0 : 0 ≤ n) (h255 : n ≤ 255) :
    ∀ c ∈ (toHex2 n).toList, c ∈ lowerHexDigits := by
  intro c hc
  rw [toHex2_toList] at hc
  have hn : n.toNat ≤ 255 := by omega
  rcases List.mem_cons.mp hc with rfl | hc2
  · exact hexDigitChar_mem _ (by omega)
  · rcases List.mem_cons.mp hc2 with rfl | hc3
    · exact hexDigitChar_mem _ (by omega)
    · simp at hc3

theorem isHexColorB_build (r g b : ℤ)
    (hr : 0 ≤ r ∧ r ≤ 255) (hg : 0 ≤ g ∧ g ≤ 255) (hb : 0 ≤ b ∧ b ≤ 255) :
    isHexColorB ("#" ++ toHex2 r ++ toHex2 g ++ toHex2 b) = true := by
  have hdata : ("#" ++ toHex2 r ++ toHex2 g ++ toHex2 b).toList =
      '#' :: ((toHex2 r).toList ++ ((toHex2 g).toList ++ (toHex2 b).toList)) := by
    show ("#" ++ toHex2 r ++ toHex2 g ++ toHex2 b).data = _
    rw [String.data_append, String.data_append, String.data_append]
    simp [toHex2_toList]
  rw [isHexColorB, hdata]
  simp only [List.headD_cons, beq_self_eq_true, Bool.true_and, List.drop_succ_cons,
    List.drop_zero, Bool.and_eq_true, beq_iff_eq, List.all_eq_true]
  constructor
  · simp [toHex2_length]
  · intro c hc
    rw [List.mem_append] at hc
    have hmem : c ∈ lowerHexDigits := by
      rcases hc with hc | hc
      · exact toHex2_digit_mem r hr.1 hr.2 c hc
      · rcases List.mem_append.mp hc with hc2 | hc2
        · exact toHex2_digit_mem g hg.1 hg.2 c hc2
        · exact toHex2_digit_mem b hb.1 hb.2 c hc2
    simpa using hmem

theorem hexColor_roundtrip (s : String) (h : isHexColorB s = true) :
    "#" ++ toHex2 ((sliceHex s 1 : ℕ) : ℤ) ++ toHex2 ((sliceHex s 3 : ℕ) : ℤ) ++
      toHex2 ((sliceHex s 5 : ℕ) : ℤ) = s := by
  rw [isHexColorB, Bool.and_eq_true, Bool.and_eq_true, beq_iff_eq, beq_iff_eq,
    List.all_eq_true] at h
  obtain ⟨hhead, hlen, hall⟩ := h
  rcases hl : s.toList with _ | ⟨c0, cs⟩
  · rw [hl] at hlen; simp at hlen
  · rw [hl] at hlen hhead hall
    rcases cs with _ | ⟨d1, cs⟩
    · simp at hlen
    rcases cs with _ | ⟨d2, cs⟩
    · simp at hlen
    rcases cs with _ | ⟨d3, cs⟩
    · simp at hlen
    rcases cs with _ | ⟨d4, cs⟩
    · simp at hlen
    rcases cs with _ | ⟨d5, cs⟩
    · simp at hlen
    rcases cs with _ | ⟨d6, cs⟩
    · simp at hlen
    rcases cs with _ | ⟨d7, cs⟩
    swap
    · simp at hlen
    simp only [List.headD_cons] at hhead
    subst hhead
    simp only [List.drop_succ_cons, List.drop_zero] at hall
    have m1 : d1 ∈ lowerHexDigits := by simpa using hall d1 (by simp)
    have m2 : d2 ∈ lowerHexDigits := by simpa using hall d2 (by simp)
    have m3 : d3 ∈ lowerHexDigits := by simpa using hall d3 (by simp)
    have m4 : d4 ∈ lowerHexDigits := by simpa using hall d4 (by simp)
    have m5 : d5 ∈ lowerHexDigits := by simpa using hall d5 (by simp)
    have m6 : d6 ∈ lowerHexDigits := by simpa using hall d6 (by simp)
    have hpair : ∀ a b : Char, a ∈ lowerHexDigits → b ∈ lowerHexDigits →
        toHex2 ((16 * hexVal a + hexVal b : ℕ) : ℤ) = String.mk [a, b] := by
      intro a b ha hb
      have h1 := hexVal_le a
      have h2 := hexVal_le b
      unfold toHex2
      rw [Int.toNat_natCast]
      have hdiv : (16 * hexVal a + hexVal b) / 16 = hexVal a := by omega
      have hmod : (16 * hexVal a + hexVal b) % 16 = hexVal b := by omega
      rw [hdiv, hmod, hexDigitChar_hexVal a ha, hexDigitChar_hexVal b hb]
    have hs1 : sliceHex s 1 = 16 * hexVal d1 + hexVal d2 := by
      rw [sliceHex, hl]
      rfl
    have hs3 : sliceHex s 3 = 16 * hexVal d3 + hexVal d4 := by
      rw [sliceHex, hl]
      rfl
    have hs5 : sliceHex s 5 = 16 * hexVal d5 + hexVal d6 := by
      rw [sliceHex, hl]
      rfl
    apply string_ext_data
    rw [String.data_append, String.data_append, String.data_append]
    have hd1 : (toHex2 ((sliceHex s 1 : ℕ) : ℤ)).data = [d1, d2] := by
      rw [hs1, hpair d1 d2 m1 m2]
    have hd3 : (toHex2 ((sliceHex s 3 : ℕ) : ℤ)).data = [d3, d4] := by
      rw [hs3, hpair d3 d4 m3 m4]
    have hd5 : (toHex2 ((sliceHex s 5 : ℕ) : ℤ)).data = [d5, d6] := by
      rw [hs5, hpair d5 d6 m5 m6]
    rw [hd1, hd3, hd5]
    have hsd : s.data = s.toList := rfl
    rw [hsd, hl]
    rfl

theorem lerpColor_one (c1 c2 : String) (h : isHexColorB c2 = true) :
    lerpColor c1 c2 1 = c2 := by
  simp only [lerpColor]
  have e : ∀ a b : ℕ, (a:ℚ) + ((b:ℚ) - a) * 1 = b := fun a b => by ring
  rw [e, e, e, jsRound_natCast, jsRound_natCast, jsRound_natCast]
  exact hexColor_roundtrip c2 h

theorem lerpColor_zero (c1 c2 : String) (h : isHexColorB c1 = true) :
    lerpColor c1 c2 0 = c1 := by
  simp only [lerpColor]
  have e : ∀ a b : ℕ, (a:ℚ) + ((b:ℚ) - a) * 0 = a := fun a b => by ring
  rw [e, e, e, jsRound_natCast, jsRound_natCast, jsRound_natCast]
  exact hexColor_roundtrip c1 h

theorem lerpColor_wf (c1 c2 : String) (t : ℚ) (h0 : 0 ≤ t) (h1 : t ≤ 1) :
    isHexColorB (lerpColor c1 c2 t) = true := by
  unfold lerpColor
  apply isHexColorB_build
  · exact jsRound_range _
      (channel_range _ _ t h0 h1 (sliceHex_le c1 1) (sliceHex_le c2 1)).1
      (channel_range _ _ t h0 h1 (sliceHex_le c1 1) (sliceHex_le c2 1)).2
  · exact jsRound_range _
      (channel_range _ _ t h0 h1 (sliceHex_le c1 3) (sliceHex_le c2 3)).1
      (channel_range _ _ t h0 h1 (sliceHex_le c1 3) (sliceHex_le c2 3)).2
  · exact jsRound_range _
      (channel_range _ _ t h0 h1 (sliceHex_le c1 5) (sliceHex_le c2 5)).1
      (channel_range _ _ t h0 h1 (sliceHex_le c1 5) (sliceHex_le c2 5)).2

theorem bandOf_bounds (bandWidth gradient : ℚ) :
    -3 ≤ bandOf bandWidth gradient ∧ bandOf bandWidth gradient ≤ 2 := by
  unfold bandOf
  exact ⟨le_max_left _ _, max_le (by norm_num) (min_le_left _ _)⟩

theorem gradientToColor_t_range (bandWidth gradient : ℚ) :
    0 ≤ max (-3) (min 3 (gradient / bandWidth)) - ((bandOf bandWidth gradient : ℤ) : ℚ) ∧
    max (-3) (min 3 (gradient / bandWidth)) - ((bandOf bandWidth gradient : ℤ) : ℚ) ≤ 1 := by
  set v := max (-3) (min 3 (gradient / bandWidth)) with hv
  have hl : (-3:ℚ) ≤ v := le_max_left _ _
  have hu : v ≤ 3 := max_le (by norm_num) (min_le_left _ _)
  have hfl : (-3:ℤ) ≤ ⌊v⌋ := Int.le_floor.mpr (by push_cast; linarith)
  have hfu : ⌊v⌋ ≤ 3 := by
    have h1 := Int.floor_le_floor hu
    have h2 : ⌊(3:ℚ)⌋ = 3 := by norm_num
    omega
  unfold bandOf
  rw [← hv]
  by_cases hc : ⌊v⌋ ≤ 2
  · have hband : max (-3) (min 2 ⌊v⌋) = ⌊v⌋ := by
      rw [min_eq_right hc, max_eq_right hfl]
    rw [hband]
    have hfle := Int.floor_le v
    have hflt := Int.lt_floor_add_one v
    constructor
    · linarith
    · linarith
  · have h3 : ⌊v⌋ = 3 := by omega
    have hband : max (-3) (min 2 ⌊v⌋) = 2 := by
      rw [h3]
      norm_num
    have hv3 : v = 3 := by
      have hfle := Int.floor_le v
      rw [h3] at hfle
      push_cast at hfle
      linarith
    rw [hband, hv3]
    norm_num

theorem bandOf_high (bandWidth gradient : ℚ) (hbw : 0 < bandWidth)
    (hg : 3 * bandWidth ≤ gradient) :
    bandOf bandWidth gradient = 2 ∧
    max (-3) (min 3 (gradient / bandWidth)) = 3 := by
  have hdiv : (3:ℚ) ≤ gradient / bandWidth := by
    rw [le_div_iff₀ hbw]
    linarith
  have hmin : min (3:ℚ) (gradient / bandWidth) = 3 := min_eq_left hdiv
  have hmax : max (-3:ℚ) 3 = 3 := by norm_num
  refine ⟨?_, by rw [hmin, hmax]⟩
  unfold bandOf
  rw [hmin, hmax]
  norm_num

theorem bandOf_low (bandWidth gradient : ℚ) (hbw : 0 < bandWidth)
    (hg : gradient ≤ -3 * bandWidth) :
    bandOf bandWidth gradient = -3 ∧
    max (-3) (min 3 (gradient / bandWidth)) = -3 := by
  have hdiv : gradient / bandWidth ≤ -3 := by
    rw [div_le_iff₀ hbw]
    linarith
  have hmin : min (3:ℚ) (gradient / bandWidth) = gradient / bandWidth :=
    min_eq_right (by linarith)
  have hmax : max (-3:ℚ) (gradient / bandWidth) = -3 := max_eq_left hdiv
  refine ⟨?_, by rw [hmin, hmax]⟩
  unfold bandOf
  rw [hmin, hmax]
  have hf : ⌊(-3:ℚ)⌋ = -3 := by norm_num
  rw [hf]
  norm_num

/-- C10: for a positive band width and a 7-entry stop list of well-formed
lowercase `'#rrggbb'` strings, the band index is clamped into `[-3, 2]`,
both stop lookups are within the list, the emitted color is a well-formed
`'#rrggbb'` string for every gradient, and the scale saturates: any
gradient at or above `3·bandWidth` yields exactly the last stop, any
gradient at or below `-3·bandWidth` exactly the first stop. -/
theorem C10_color_safety (colorStops : List String) (bandWidth gradient : ℚ)
    (hbw : 0 < bandWidth) (hlen : colorStops.length = 7)
    (hwf : ∀ s ∈ colorStops, isHexColorB s = true) :
    -3 ≤ bandOf bandWidth gradient ∧ bandOf bandWidth gradient ≤ 2 ∧
    (bandOf bandWidth gradient + 3).toNat < colorStops.length ∧
    (bandOf bandWidth gradient + 4).toNat < colorStops.length ∧
    isHexColorB (gradientToColor colorStops bandWidth gradient) = true ∧
    (3 * bandWidth ≤ gradient →
      gradientToColor colorStops bandWidth gradient = colorStops.getD 6 "") ∧
    (gradient ≤ -3 * bandWidth →
      gradientToColor colorStops bandWidth gradient = colorStops.getD 0 "") := by
  obtain ⟨hb1, hb2⟩ := bandOf_bounds bandWidth gradient
  refine ⟨hb1, hb2, by omega, by omega, ?_, ?_, ?_⟩
  · unfold gradientToColor
    exact lerpColor_wf _ _ _ (gradientToColor_t_range bandWidth gradient).1
      (gradientToColor_t_range bandWidth gradient).2
  · intro hg
    obtain ⟨hband, hnorm⟩ := bandOf_high bandWidth gradient hbw hg
    simp only [gradientToColor]
    rw [hband, hnorm]
    have h5 : ((2:ℤ) + 3).toNat = 5 := rfl
    have h6 : ((2:ℤ) + 4).toNat = 6 := rfl
    have ht : (3:ℚ) - ((2:ℤ) : ℚ) = 1 := by norm_num
    rw [h5, h6, ht]
    exact lerpColor_one _ _ (hwf _ (getD_mem_of_lt colorStops 6 "" (by omega)))
  · intro hg
    obtain ⟨hband, hnorm⟩ := bandOf_low bandWidth gradient hbw hg
    simp only [gradientToColor]
    rw [hband, hnorm]
    have h0 : ((-3:ℤ) + 3).toNat = 0 := rfl
    have h1 : ((-3:ℤ) + 4).toNat = 1 := rfl
    have ht : (-3:ℚ) - ((-3:ℤ) : ℚ) = 0 := by norm_num
    rw [h0, h1, ht]
    exact lerpColor_zero _ _ (hwf _ (getD_mem_of_lt colorStops 0 "" (by omega)))

/-- Witness for C10 at the default settings (`colorStops` default list,
band width 7) and a concrete gradient. -/
theorem C10_witness :
    -3 ≤ bandOf 7 30 ∧ bandOf 7 30 ≤ 2 ∧
    (bandOf 7 30 + 3).toNat < defaultColorStops.length ∧
    (bandOf 7 30 + 4).toNat < defaultColorStops.length ∧
    isHexColorB (gradientToColor defaultColorStops 7 30) = true ∧
    (3 * 7 ≤ (30:ℚ) →
      gradientToColor defaultColorStops 7 30 = defaultColorStops.getD 6 "") ∧
    ((30:ℚ) ≤ -3 * 7 →
      gradientToColor defaultColorStops 7 30 = defaultColorStops.getD 0 "") :=
  C10_color_safety defaultColorStops 7 30 (by norm_num) (by rfl) (by decide)
